import Mathlib

/-!
Shallow embedding of the progressive aspect-generation protocol and
command-application engine of the code-brainstormer repository.

Sources embedded (variant actually wired together in the repository):
* `src/store/codebase.types.ts` — `AspectState`, `CodeAspect`, `CodeFunction`.
* `src/store/useCodebaseStore.ts` — `createCodeAspect`, `createCodeFunction`,
  `addCodeFunction`, `updateCodeFunction`, `removeCodeFunction`.
  (The executor file calls these `addCodeMethod` / `updateCodeMethod` /
  `removeCodeMethod`; the store bodies are line-for-line the same.)
* `src/features/codegen/codegenApply.ts` — `applyCodegenCommands`
  (the FIFO drain loop with the implementation-text scanner).
* `src/features/codegen/codegenFrontend.ts` (lines 332-362) —
  `calculateAspectsToGenerate` with the `includeEditedAspect` parameter.
* `src/features/codegen/codegenCloudLlm.ts` — `isValidCodeGenCommand`,
  `cloudLlmGenerateCode`; `src/features/codegen/codegenBackend.ts` —
  `callLLMCodeSynthesis`.
* `src/unnamed/part_010` (`ProjectCanvas`) — the per-implementation scan and
  per-name occurrence counter of `buildEdges` (lines 53-90).

Modelling conventions: TypeScript runtime values that cross the LLM boundary
are modelled by the JavaScript-value type `JsValue` (TS static types are
erased at runtime, so e.g. the `aspect` field of a command is an arbitrary
string); machine state is passed explicitly; the unbounded `while` drain
loop is modelled by a step function iterated a provably sufficient number of
times (`queueWeight`), with stationarity lemmas showing the result is the
loop's fixpoint.
-/

/-- `AspectState` enum from `src/store/codebase.types.ts` (lines 10-15):
`unset`, `autogen`, `edited`, `locked`. -/
inductive AspectState where
  | UNSET
  | AUTOGEN
  | EDITED
  | LOCKED
deriving DecidableEq, Repr

/-- `CodeAspect` from `src/store/codebase.types.ts`: a descriptor string plus a
lifecycle state. (`toString`/`toJSON` helpers are display-only and omitted.) -/
structure CodeAspect where
  descriptor : String
  state : AspectState
deriving DecidableEq, Repr

/-- `CodeFunction` from `src/store/codebase.types.ts`: the four ordered aspects
plus the free-form rendered-code field `code`. -/
structure CodeFunction where
  identifier : CodeAspect
  signature : CodeAspect
  specification : CodeAspect
  implementation : CodeAspect
  code : String
deriving DecidableEq, Repr

/-- `CodeAspectType` enum from `src/store/codebase.types.ts` (lines 3-8). -/
inductive CodeAspectType where
  | IDENTIFIER
  | SIGNATURE
  | SPECIFICATION
  | IMPLEMENTATION
deriving DecidableEq, Repr

/-- The string value of each `CodeAspectType` enum member (the TS enum is
string-valued: `identifier`, `signature`, `specification`, `implementation`). -/
def CodeAspectType.value : CodeAspectType → String
  | .IDENTIFIER => "identifier"
  | .SIGNATURE => "signature"
  | .SPECIFICATION => "specification"
  | .IMPLEMENTATION => "implementation"

/-- Field access `func[aspectType]` used by the source via computed keys. -/
def CodeFunction.aspect (f : CodeFunction) : CodeAspectType → CodeAspect
  | .IDENTIFIER => f.identifier
  | .SIGNATURE => f.signature
  | .SPECIFICATION => f.specification
  | .IMPLEMENTATION => f.implementation

/-- A JavaScript object spread fragment `{descriptor?, state?}` — the
`Partial<CodeAspectData>` values flowing into `createCodeAspect` and the
aspect spreads of `updateCodeFunction`. -/
structure CodeAspectPatch where
  descriptor : Option String := none
  state : Option AspectState := none
deriving DecidableEq, Repr

/-- A `Partial<CodeFunction>` / `Partial<CodeFunctionData>` object: each of the
four aspect keys may be absent (JS `undefined`), as may `code`. An absent key
spreads to nothing in `updateCodeFunction`. -/
structure CodeFunctionPatch where
  identifier : Option CodeAspectPatch := none
  signature : Option CodeAspectPatch := none
  specification : Option CodeAspectPatch := none
  implementation : Option CodeAspectPatch := none
  code : Option String := none
deriving DecidableEq, Repr

/-- `createCodeAspect` from `src/store/useCodebaseStore.ts` (lines 17-22):
`new CodeAspect(field.descriptor ?? '', field.state ?? AspectState.UNSET)`. -/
def createCodeAspect (field : CodeAspectPatch) : CodeAspect :=
  { descriptor := field.descriptor.getD "", state := field.state.getD AspectState.UNSET }

/-- `createCodeFunction` from `src/store/useCodebaseStore.ts` (lines 25-34):
builds a full `CodeFunction` from partial data, defaulting `code` to `''`. -/
def createCodeFunction (func : CodeFunctionPatch) : CodeFunction :=
  { identifier := createCodeAspect (func.identifier.getD {})
    signature := createCodeAspect (func.signature.getD {})
    specification := createCodeAspect (func.specification.getD {})
    implementation := createCodeAspect (func.implementation.getD {})
    code := func.code.getD "" }

/-- The domain part of `CodebaseState` (`src/store/codebase.types.ts` lines
86-98): project name plus the ordered function list. Node positions and
React-Flow state are UI-only and out of the protocol's scope. -/
structure CodebaseState where
  projectName : String
  codeFunctions : List CodeFunction
deriving DecidableEq, Repr

/-- JS object spread `{...existing, ...patch}` for one aspect followed by
`createCodeAspect`: a present patch field wins, an absent one keeps the
existing value (`updateCodeFunction`, `src/store/useCodebaseStore.ts` 87-90). -/
def applyAspectPatch (a : CodeAspect) : Option CodeAspectPatch → CodeAspect
  | none => { descriptor := a.descriptor, state := a.state }
  | some p => { descriptor := p.descriptor.getD a.descriptor, state := p.state.getD a.state }

/-- The merged function built inside `updateCodeFunction`
(`src/store/useCodebaseStore.ts` lines 86-92). -/
def applyFunctionPatch (f : CodeFunction) (p : CodeFunctionPatch) : CodeFunction :=
  { identifier := applyAspectPatch f.identifier p.identifier
    signature := applyAspectPatch f.signature p.signature
    specification := applyAspectPatch f.specification p.specification
    implementation := applyAspectPatch f.implementation p.implementation
    code := p.code.getD f.code }

/-- `addCodeFunction` (`src/store/useCodebaseStore.ts`): append a fresh
default function (`createCodeFunction()` of an empty partial). The stored
node position is UI-only and omitted. -/
def addCodeFunction (s : CodebaseState) : CodebaseState :=
  { s with codeFunctions := s.codeFunctions ++ [createCodeFunction {}] }

/-- `updateCodeFunction(index, func)` (`src/store/useCodebaseStore.ts` lines
81-101): no-op when the index does not resolve, otherwise replace the function
at `index` with the merge of the existing function and the partial. -/
def updateCodeFunction (index : Nat) (func : CodeFunctionPatch) (s : CodebaseState) :
    CodebaseState :=
  match s.codeFunctions.get? index with
  | none => s
  | some existingFunction =>
      { s with codeFunctions :=
          s.codeFunctions.set index (applyFunctionPatch existingFunction func) }

/-- `removeCodeFunction(index)` (`src/store/useCodebaseStore.ts` lines
104-111): `filter((_, i) => i !== index)`, i.e. drop the element at `index`
when it exists. -/
def removeCodeFunction (index : Nat) (s : CodebaseState) : CodebaseState :=
  { s with codeFunctions := s.codeFunctions.eraseIdx index }

/-- Character class `[a-zA-Z_]` (start of a call-shaped name in the
executor's regex `([a-zA-Z_][a-zA-Z0-9_]*)\s*\(`). -/
def isWordStart (c : Char) : Bool :=
  (('a' ≤ c && c ≤ 'z') || ('A' ≤ c && c ≤ 'Z') || c = '_')

/-- Character class `[a-zA-Z0-9_]` (continuation of a call-shaped name). -/
def isWordChar (c : Char) : Bool :=
  isWordStart c || ('0' ≤ c && c ≤ '9')

/-- The regex class `\s`, restricted to its ASCII members (space, tab,
newline, carriage return, vertical tab, form feed); the texts handled by the
protocol are ASCII. -/
def isSpaceChar (c : Char) : Bool :=
  c = ' ' || c = '\t' || c = '\n' || c = '\x0d' || c = '\x0b' || c = '\x0c'

/-- One left-to-right pass of the sticky regex
`/([a-zA-Z_][a-zA-Z0-9_]*)\s*\(/g` used by the executor's implementation-text
scanner (`src/features/codegen/codegenApply.ts` lines 53-58), as a state
machine: `pending` is the current candidate name (reversed) and `afterSpace`
records that whitespace has been seen since the name ended. A match is a
maximal word run starting with a word-start character, optional whitespace,
then `(`; scanning resumes after the consumed `(`. Backtracking never yields
extra matches for this pattern, and a failed start position advances by one
character, which this accumulator formulation reproduces. -/
def scanCallsGo : List Char → List Char → Bool → List String
  | [], _, _ => []
  | c :: rest, pending, afterSpace =>
      if c = '(' then
        match pending with
        | [] => scanCallsGo rest [] false
        | _ => String.mk pending.reverse :: scanCallsGo rest [] false
      else if isWordChar c then
        if afterSpace then
          scanCallsGo rest (if isWordStart c then [c] else []) false
        else
          match pending with
          | [] => scanCallsGo rest (if isWordStart c then [c] else []) false
          | _ => scanCallsGo rest (c :: pending) false
      else if isSpaceChar c then
        match pending with
        | [] => scanCallsGo rest [] false
        | _ => scanCallsGo rest pending true
      else
        scanCallsGo rest [] false

/-- All call-shaped names `name(` of an implementation text, in match order —
the sequence of `match[1]` values produced by the executor's regex loop. -/
def scanImplementationCalls (value : String) : List String :=
  scanCallsGo value.data [] false

/-- Insertion-order deduplication: the iteration order of the JS
`Set<string>` filled by `referencedFns.add(match[1])`
(`src/features/codegen/codegenApply.ts` lines 54-58) — first occurrences, in
order of first insertion. -/
def dedupFirst : List String → List String :=
  go []
where
  /-- Keep a name only if it has not been seen yet. -/
  go (seen : List String) : List String → List String
    | [] => []
    | n :: rest => if seen.contains n then go seen rest else n :: go (n :: seen) rest

/-- The duplicate-existence check of the executor
(`src/features/codegen/codegenApply.ts` lines 62-64):
`store.codeMethods.some((m) => m.identifier.descriptor.startsWith(fnName))`. -/
def existsStartsWith (fns : List CodeFunction) (fnName : String) : Bool :=
  fns.any (fun m => m.identifier.descriptor.startsWith fnName)

/-- The command union of `src/features/codegen/codegenCommands.ts`, as it
exists at runtime. The `aspect` field of `update_aspect` is an arbitrary
string: the static `CodeAspectType` annotation is erased, and the validator
only checks that the field is a string, so unknown aspect names reach the
executor. The optional `commentary` field has no effect and is omitted. -/
inductive CodeGenCommand where
  | createMethod (className : String) (method : CodeFunctionPatch)
  | deleteMethod (className methodName : String)
  | updateAspect (className methodName aspect value : String)
  | updateMethodCode (className methodName value : String)
deriving DecidableEq, Repr

/-- Exact first-match resolution used by the executor for command targets:
`codeMethods.findIndex((m) => m.identifier.descriptor === cmd.methodName)`,
with the source's `-1` failure sentinel rendered as `none`. -/
def findMethodIndex : List CodeFunction → String → Option Nat
  | [], _ => none
  | m :: rest, methodName =>
      if m.identifier.descriptor = methodName then some 0
      else (findMethodIndex rest methodName).map (· + 1)

/-- The computed-key partial `{[cmd.aspect]: {descriptor: cmd.value, state:
AspectState.AUTOGEN}}` from the executor's `UPDATE_ASPECT` case
(`src/features/codegen/codegenApply.ts` lines 47-49). A key that is not one
of the four fixed aspect keys produces an object none of whose recognized
keys are present (the stray key is ignored by `createCodeFunction`). -/
def aspectKeyPatch (aspect value : String) : CodeFunctionPatch :=
  let p : CodeAspectPatch := { descriptor := some value, state := some AspectState.AUTOGEN }
  if aspect = "identifier" then { identifier := some p }
  else if aspect = "signature" then { signature := some p }
  else if aspect = "specification" then { specification := some p }
  else if aspect = "implementation" then { implementation := some p }
  else {}

/-- The fully-populated partial enqueued for a newly discovered function
(`src/features/codegen/codegenApply.ts` lines 66-72): identifier set to the
unresolved name with state `autogen`, the other aspects empty and `unset`,
`code` empty. -/
def autoCreatePatch (fnName : String) : CodeFunctionPatch :=
  { identifier := some { descriptor := some fnName, state := some AspectState.AUTOGEN }
    signature := some { descriptor := some "", state := some AspectState.UNSET }
    specification := some { descriptor := some "", state := some AspectState.UNSET }
    implementation := some { descriptor := some "", state := some AspectState.UNSET }
    code := some "" }

/-- A full `CodeFunction` read back as a `Partial<CodeFunction>` (every key
present), as happens when `updateCodeMethod(newIndex, newMethod)` is passed a
freshly built function object. -/
def patchOfFunction (f : CodeFunction) : CodeFunctionPatch :=
  { identifier := some { descriptor := some f.identifier.descriptor, state := some f.identifier.state }
    signature := some { descriptor := some f.signature.descriptor, state := some f.signature.state }
    specification := some { descriptor := some f.specification.descriptor, state := some f.specification.state }
    implementation := some { descriptor := some f.implementation.descriptor, state := some f.implementation.state }
    code := some f.code }

/-- One iteration of the executor's `switch` (`src/features/codegen/codegenApply.ts`
lines 26-115): given the store state and the dequeued command, return the new
store state and the commands pushed onto the queue by this command.

* `CREATE_METHOD`: `addCodeMethod()` then populate the new last slot via
  `updateCodeMethod(newIndex, createCodeMethod(cmd.method))`; enqueues nothing.
* `UPDATE_ASPECT`: resolve by exact identifier match; on failure warn and skip.
  Otherwise apply the computed-key partial, and — only when `cmd.aspect` is the
  string `implementation` — scan `cmd.value` for call-shaped names, deduplicate
  them in first-occurrence order, and enqueue a `CREATE_METHOD` for each name
  for which no function of the *pre-update* store snapshot (`store`, captured
  before the mutation) has an identifier starting with the name.
* `DELETE_METHOD` / `UPDATE_METHOD_CODE`: resolve by exact identifier match;
  on failure warn and skip; otherwise remove, respectively replace `code`.

Logging (`console.warn`/`console.log`) has no effect on state and is not
modelled. -/
def execCommand (s : CodebaseState) : CodeGenCommand → CodebaseState × List CodeGenCommand
  | .createMethod _ method =>
      let s1 := addCodeFunction s
      let newIndex := s1.codeFunctions.length - 1
      let newMethod := createCodeFunction method
      (updateCodeFunction newIndex (patchOfFunction newMethod) s1, [])
  | .updateAspect className methodName aspect value =>
      match findMethodIndex s.codeFunctions methodName with
      | none => (s, [])
      | some methodIndex =>
          let s' := updateCodeFunction methodIndex (aspectKeyPatch aspect value) s
          if aspect = "implementation" then
            let referencedFns := dedupFirst (scanImplementationCalls value)
            let newNames := referencedFns.filter
              (fun fnName => ! existsStartsWith s.codeFunctions fnName)
            (s', newNames.map (fun fnName =>
              CodeGenCommand.createMethod className (autoCreatePatch fnName)))
          else
            (s', [])
  | .deleteMethod _ methodName =>
      match findMethodIndex s.codeFunctions methodName with
      | none => (s, [])
      | some methodIndex => (removeCodeFunction methodIndex s, [])
  | .updateMethodCode _ methodName value =>
      match findMethodIndex s.codeFunctions methodName with
      | none => (s, [])
      | some methodIndex => (updateCodeFunction methodIndex { code := some value } s, [])

/-- Termination measure of one queued command: `1` for commands that enqueue
nothing, and `1` plus the number of call-shaped tokens in the value for an
`update_aspect` command (an upper bound on the creations it can enqueue). -/
def cmdWeight : CodeGenCommand → Nat
  | .updateAspect _ _ _ value => 1 + (scanImplementationCalls value).length
  | _ => 1

/-- Total termination measure of a queue. -/
def queueWeight (q : List CodeGenCommand) : Nat :=
  (q.map cmdWeight).sum

/-- `n` bounded iterations of the drain loop of `applyCodegenCommands`
(`src/features/codegen/codegenApply.ts` lines 15-116): dequeue from the
front, execute, push any newly enqueued commands to the back. Once the queue
is empty the configuration is stationary. `queueWeight` iterations provably
drain any queue (see the termination theorem), so the source's unbounded
`while` loop is this iteration run to its fixpoint. -/
def execStepN : Nat → CodebaseState × List CodeGenCommand → CodebaseState × List CodeGenCommand
  | 0, cfg => cfg
  | _ + 1, (s, []) => (s, [])
  | n + 1, (s, cmd :: rest) =>
      execStepN n ((execCommand s cmd).1, rest ++ (execCommand s cmd).2)

/-- `applyCodegenCommands(initialCmds)` run against store state `s`: drain
the FIFO queue to completion and return the final store state. -/
def applyCodegenCommands (initialCmds : List CodeGenCommand) (s : CodebaseState) :
    CodebaseState :=
  (execStepN (queueWeight initialCmds) (s, initialCmds)).1

/-- `ASPECT_PROGRESSION` (`src/features/codegen/codegenFrontend.ts` lines
305-310): the fixed total order identifier, signature, specification,
implementation. -/
def ASPECT_PROGRESSION : List CodeAspectType :=
  [CodeAspectType.IDENTIFIER, CodeAspectType.SIGNATURE,
   CodeAspectType.SPECIFICATION, CodeAspectType.IMPLEMENTATION]

/-- The `for` loop of `calculateAspectsToGenerate`
(`src/features/codegen/codegenFrontend.ts` lines 348-359): walk the remaining
progression; `break` at the first aspect whose state is `LOCKED`, otherwise
push the aspect and continue. -/
def aspectsLoop (func : CodeFunction) : List CodeAspectType → List CodeAspectType
  | [] => []
  | aspectType :: rest =>
      if (func.aspect aspectType).state = AspectState.LOCKED then []
      else aspectType :: aspectsLoop func rest

/-- `calculateAspectsToGenerate(editedAspect, func, includeEditedAspect)`
(`src/features/codegen/codegenFrontend.ts` lines 332-362): locate the edited
aspect in the progression (unknown aspect yields `[]`), start at it (reroll)
or just after it (normal edit), and collect forward until the first locked
aspect. -/
def calculateAspectsToGenerate (editedAspect : CodeAspectType) (func : CodeFunction)
    (includeEditedAspect : Bool := false) : List CodeAspectType :=
  match ASPECT_PROGRESSION.indexOf? editedAspect with
  | none => []
  | some editedIndex =>
      let startIndex := if includeEditedAspect then editedIndex else editedIndex + 1
      aspectsLoop func (ASPECT_PROGRESSION.drop startIndex)

/-- Runtime JavaScript values, as needed to model the objects the generation
service returns: the validator receives arbitrary parsed-JSON values plus
possibly `undefined` field reads. -/
inductive JsValue where
  | null
  | undefined
  | bool (b : Bool)
  | num (n : Int)
  | str (s : String)
  | arr (elems : List JsValue)
  | obj (fields : List (String × JsValue))

/-- Property read `v[key]`: a missing key (or a read on a non-object) yields
`undefined`. Arrays have no relevant string keys here. -/
def JsValue.getField : JsValue → String → JsValue
  | .obj fields, key => ((fields.find? (fun kv => kv.1 = key)).map (fun kv => kv.2)).getD .undefined
  | _, _ => .undefined

/-- JavaScript `typeof`. -/
def JsValue.typeName : JsValue → String
  | .null => "object"
  | .undefined => "undefined"
  | .bool _ => "boolean"
  | .num _ => "number"
  | .str _ => "string"
  | .arr _ => "object"
  | .obj _ => "object"

/-- JavaScript truthiness (`!!v`): `null`, `undefined`, `false`, `0` and the
empty string are falsy, everything else truthy. -/
def JsValue.truthy : JsValue → Bool
  | .null => false
  | .undefined => false
  | .bool b => b
  | .num n => n ≠ 0
  | .str s => s ≠ ""
  | .arr _ => true
  | .obj _ => true

/-- `v` is a string value (`typeof v === 'string'`). -/
def JsValue.isStr (v : JsValue) : Bool :=
  v.typeName = "string"

/-- `isValidCodeGenCommand` (`src/features/codegen/codegenCloudLlm.ts` lines
67-108), faithfully: reject non-objects and objects without a string `type`;
then switch on the `type` string:

* `update_aspect`: `methodName`, `aspect` and `value` must be strings
  (`className` is not checked, and `aspect` may be any string);
* `create_method`: `className` must be a string and `method` merely truthy
  (`!!obj.method` — the inner shape is not checked);
* `delete_method`: `className` and `methodName` must be strings;
* `update_method_code`: `className`, `methodName` and `value` must be strings;
* any other `type` string: reject.

Extra unknown fields are never inspected. The function is total. -/
def isValidCodeGenCommand (obj : JsValue) : Bool :=
  if !obj.truthy || obj.typeName != "object" then false
  else if !(obj.getField "type").isStr then false
  else match obj.getField "type" with
    | .str t =>
        if t = "update_aspect" then
          (obj.getField "methodName").isStr && (obj.getField "aspect").isStr &&
            (obj.getField "value").isStr
        else if t = "create_method" then
          (obj.getField "className").isStr && (obj.getField "method").truthy
        else if t = "delete_method" then
          (obj.getField "className").isStr && (obj.getField "methodName").isStr
        else if t = "update_method_code" then
          (obj.getField "className").isStr && (obj.getField "methodName").isStr &&
            (obj.getField "value").isStr
        else false
    | _ => false

/-- The four aspect-name strings admitted by the command schema. -/
def aspectNameStrings : List String :=
  ["identifier", "signature", "specification", "implementation"]

/-- The four lifecycle-state strings of the string enum `AspectState`. -/
def aspectStateStrings : List String :=
  ["unset", "autogen", "edited", "locked"]

/-- `v` is an object shaped like a `CodeAspectData` record: `descriptor` a
string and `state` one of the four lifecycle strings. -/
def specAspectShape (v : JsValue) : Bool :=
  match v with
  | .obj _ =>
      (v.getField "descriptor").isStr &&
        (match v.getField "state" with
          | .str s => aspectStateStrings.contains s
          | _ => false)
  | _ => false

/-- Refinement reference for the Command Validator claim, written from the
spec's words (section 4.5 with the shapes of section 6, under the spec's
systematic renaming onto the code's vocabulary: `create_function` /
`functionName` / `text` / `lifecycle` appear in the code as `create_method` /
`methodName` / `descriptor` / `state`, and the command interfaces of
`src/features/codegen/codegenCommands.ts` also carry `className`): an object
exactly matches one of the four command shapes when its `type` tag is one of
the four and every required field of that shape is present with the right
type — for `create_method` a function record with the four aspect records;
for `update_aspect` an `aspect` that is one of the four aspect names. Extra
unknown fields are allowed. -/
def specCommandShape (v : JsValue) : Bool :=
  match v with
  | .obj _ =>
      match v.getField "type" with
      | .str t =>
          if t = "update_aspect" then
            (v.getField "className").isStr && (v.getField "methodName").isStr &&
              (match v.getField "aspect" with
                | .str a => aspectNameStrings.contains a
                | _ => false) &&
              (v.getField "value").isStr
          else if t = "create_method" then
            (v.getField "className").isStr &&
              (match v.getField "method" with
                | .obj _ =>
                    specAspectShape ((v.getField "method").getField "identifier") &&
                    specAspectShape ((v.getField "method").getField "signature") &&
                    specAspectShape ((v.getField "method").getField "specification") &&
                    specAspectShape ((v.getField "method").getField "implementation")
                | _ => false)
          else if t = "delete_method" then
            (v.getField "className").isStr && (v.getField "methodName").isStr
          else if t = "update_method_code" then
            (v.getField "className").isStr && (v.getField "methodName").isStr &&
              (v.getField "value").isStr
          else false
      | _ => false
  | _ => false

/-- The `type` field holds one of the four recognized command tags. -/
def hasRecognizedCommandType (v : JsValue) : Bool :=
  match v.getField "type" with
  | .str t =>
      t == "update_aspect" || t == "create_method" || t == "delete_method" ||
        t == "update_method_code"
  | _ => false

/-- The generation-service response as seen by `cloudLlmGenerateCode` after
the network call: the SDK `stop_reason` (the string `end_turn` marks a
complete, non-truncated turn) and the result of `JSON.parse` on the
(markdown-stripped, joined) response text — `none` when the text is not
parseable as JSON, in which case the source's `try`/`catch` takes the
`catch` branch. -/
structure LlmResponse where
  stop_reason : String
  body : Option JsValue

/-- The decision core of `cloudLlmGenerateCode`
(`src/features/codegen/codegenCloudLlm.ts` lines 147-183): fail fast with
zero commands when `stop_reason` is not `end_turn`; return zero commands when
the text does not parse as JSON; read `parsed.commands`, treating anything
that is not an array as the empty list; and keep only the commands accepted
by `isValidCodeGenCommand`. Prompt construction and the network call itself
carry no decision logic and are not modelled. -/
def cloudLlmGenerateCode (response : LlmResponse) : List JsValue :=
  if response.stop_reason ≠ "end_turn" then []
  else match response.body with
    | none => []
    | some parsed =>
        let cmds := match parsed.getField "commands" with
          | .arr xs => xs
          | _ => []
        cmds.filter isValidCodeGenCommand

/-- `callLLMCodeSynthesis` (`src/features/codegen/codegenBackend.ts` lines
46-61): delegate to the cloud call; when it produced at least one valid
command return them, otherwise throw. The thrown `Error` is modelled as
`Except.error` with the source's message; the caller receives no commands to
apply in that case. -/
def callLLMCodeSynthesis (response : LlmResponse) : Except String (List JsValue) :=
  let cloudCmds := cloudLlmGenerateCode response
  if cloudCmds.length ≠ 0 then Except.ok cloudCmds
  else Except.error "No code-gen commands were generated from the cloud test or the sim backend."

/-- Character class `[A-Za-z_]` of the edge-builder regex
`/[A-Za-z_]+(?=\()/g` (`src/unnamed/part_010` line 55) — note: unlike the
executor's scanner it admits no digits and no whitespace before `(`. -/
def isEdgeNameChar (c : Char) : Bool :=
  (('a' ≤ c && c ≤ 'z') || ('A' ≤ c && c ≤ 'Z') || c = '_')

/-- One left-to-right pass of `/[A-Za-z_]+(?=\()/g` over an implementation
text: a match is a maximal run of name characters followed directly by `(`
(the lookahead does not consume the parenthesis; the next search starts at
it, and since `(` cannot start a name the scan effectively continues after
it). `pending` is the candidate run (reversed). -/
def edgeScanGo : List Char → List Char → List String
  | [], _ => []
  | c :: rest, pending =>
      if isEdgeNameChar c then edgeScanGo rest (c :: pending)
      else if c = '(' then
        match pending with
        | [] => edgeScanGo rest []
        | _ => String.mk pending.reverse :: edgeScanGo rest []
      else edgeScanGo rest []

/-- All function-call names of an implementation text in match order, as the
edge builder's regex loop extracts them (`match[0]` values). -/
def edgeScanNames (impl : String) : List String :=
  edgeScanGo impl.data []

/-- The `fnCounts` loop of `buildEdges` (`src/unnamed/part_010` lines 62-67):
pair each matched name with `fnCounts[fnName] ?? 0`, then increment that
name's counter. The `Record<string, number>` is modelled as a total counter
function initialised to zero. -/
def buildEdgeRefsGo : List String → (String → Nat) → List (String × Nat)
  | [], _ => []
  | fnName :: rest, fnCounts =>
      let localIndex := fnCounts fnName
      (fnName, localIndex) ::
        buildEdgeRefsGo rest (fun m => if m = fnName then localIndex + 1 else fnCounts m)

/-- The `{name, occurrenceIndex}` sequence one source node contributes in
`buildEdges`: every call-shaped token of the implementation text with its
zero-based per-name occurrence counter. (The geometric edge attributes built
from these pairs are UI-only.) -/
def buildEdgeRefs (impl : String) : List (String × Nat) :=
  buildEdgeRefsGo (edgeScanNames impl) (fun _ => 0)

/-- Specification-style indexing: pair each element of a name sequence with
the number of earlier occurrences of the same name. -/
def withLocalIndices (names : List String) : List (String × Nat) :=
  go names []
where
  /-- `seen` accumulates the names already passed, in order. -/
  go : List String → List String → List (String × Nat)
    | [], _ => []
    | n :: rest, seen => (n, seen.count n) :: go rest (seen ++ [n])

/-- Position of an aspect in `ASPECT_PROGRESSION` (the `editedIndex` computed
by `indexOf`). -/
def aspectIndex : CodeAspectType → Nat
  | .IDENTIFIER => 0
  | .SIGNATURE => 1
  | .SPECIFICATION => 2
  | .IMPLEMENTATION => 3

/-- The component of a partial corresponding to one aspect key. -/
def CodeFunctionPatch.field (p : CodeFunctionPatch) : CodeAspectType → Option CodeAspectPatch
  | .IDENTIFIER => p.identifier
  | .SIGNATURE => p.signature
  | .SPECIFICATION => p.specification
  | .IMPLEMENTATION => p.implementation

/-- The function record created for a discovered unresolved name once its
`CREATE_METHOD` command executes. -/
def autoCreatedFunction (fnName : String) : CodeFunction :=
  createCodeFunction (autoCreatePatch fnName)

/-- The `parsed.commands` field is a JS array. -/
def commandsFieldIsArr (parsed : JsValue) : Bool :=
  match parsed.getField "commands" with
  | .arr _ => true
  | _ => false

/-- A function whose identifier was typed by the user and whose other aspects
are still untouched (scenario constructor for concrete runs). -/
def plainFunction (fnName : String) : CodeFunction :=
  { identifier := { descriptor := fnName, state := AspectState.EDITED }
    signature := { descriptor := "", state := AspectState.UNSET }
    specification := { descriptor := "", state := AspectState.UNSET }
    implementation := { descriptor := "", state := AspectState.UNSET }
    code := "" }

/-- Concrete store for the duplicate-creation runs: two user-named functions
`f` and `g`, no function named `helper`. -/
def dupScenarioStore : CodebaseState :=
  { projectName := "p", codeFunctions := [plainFunction "f", plainFunction "g"] }

/-- Concrete validated batch: two `update_aspect(implementation)` commands
whose texts both mention the single unresolved name `helper`. -/
def dupScenarioBatch : List CodeGenCommand :=
  [CodeGenCommand.updateAspect "C" "f" "implementation" "helper()",
   CodeGenCommand.updateAspect "C" "g" "implementation" "helper()"]

/-- A resolved index points at a function of the list. -/
theorem findMethodIndex_get? (fns : List CodeFunction) (methodName : String) (i : Nat)
    (h : findMethodIndex fns methodName = some i) :
    ∃ f, fns.get? i = some f := by
  induction fns generalizing i with
  | nil => simp [findMethodIndex] at h
  | cons m rest ih =>
      by_cases hm : m.identifier.descriptor = methodName
      · simp [findMethodIndex, hm] at h
        subst h
        exact ⟨m, rfl⟩
      · simp [findMethodIndex, hm] at h
        obtain ⟨j, hj, rfl⟩ := h
        obtain ⟨f, hf⟩ := ih j hj
        exact ⟨f, by simpa using hf⟩

/-- When no function's identifier equals the name, resolution fails. -/
theorem findMethodIndex_eq_none (fns : List CodeFunction) (methodName : String)
    (h : ∀ f ∈ fns, f.identifier.descriptor ≠ methodName) :
    findMethodIndex fns methodName = none := by
  induction fns with
  | nil => rfl
  | cons m rest ih =>
      have hm : m.identifier.descriptor ≠ methodName := h m (by simp)
      simp [findMethodIndex, hm]
      exact ih (fun f hf => h f (by simp [hf]))

/-- Replacing a list entry by the value already stored there is the identity. -/
theorem list_set_self {α : Type} : ∀ (l : List α) (i : Nat) (a : α),
    l.get? i = some a → l.set i a = l
  | [], _, _, h => by cases h
  | b :: l, 0, a, h => by
      have hb : b = a := Option.some.inj h
      rw [List.set]
      rw [hb]
  | b :: l, i + 1, a, h => by
      have h' : l.get? i = some a := h
      rw [List.set]
      rw [list_set_self l i a h']

/-- Merging the empty partial reproduces the function unchanged. -/
theorem applyFunctionPatch_empty (f : CodeFunction) : applyFunctionPatch f {} = f := rfl

/-- `updateCodeFunction` with the empty partial is a no-op. -/
theorem updateCodeFunction_empty (index : Nat) (s : CodebaseState) :
    updateCodeFunction index {} s = s := by
  unfold updateCodeFunction
  cases h : s.codeFunctions.get? index with
  | none => rfl
  | some f => simp [applyFunctionPatch_empty, list_set_self _ _ _ h]

/-- The computed-key partial for a key outside the four fixed aspect keys is
the empty partial. -/
theorem aspectKeyPatch_unknown (aspect value : String) (h : aspect ∉ aspectNameStrings) :
    aspectKeyPatch aspect value = {} := by
  simp [aspectNameStrings] at h
  obtain ⟨h1, h2, h3, h4⟩ := h
  simp [aspectKeyPatch, h1, h2, h3, h4]

/-- `queueWeight` distributes over queue concatenation. -/
theorem queueWeight_append (q1 q2 : List CodeGenCommand) :
    queueWeight (q1 ++ q2) = queueWeight q1 + queueWeight q2 := by
  simp [queueWeight]

/-- Every command has positive weight. -/
theorem cmdWeight_pos (cmd : CodeGenCommand) : 1 ≤ cmdWeight cmd := by
  cases cmd <;> simp [cmdWeight]

/-- A queue of zero weight is empty. -/
theorem queueWeight_eq_zero (q : List CodeGenCommand) (h : queueWeight q = 0) : q = [] := by
  cases q with
  | nil => rfl
  | cons c rest =>
      exfalso
      have hc := cmdWeight_pos c
      simp [queueWeight] at h
      omega

/-- The deduplicated scan never grows beyond the raw scan. -/
theorem dedupFirst_length_le (l : List String) : (dedupFirst l).length ≤ l.length := by
  suffices h : ∀ (seen : List String) (l : List String),
      (dedupFirst.go seen l).length ≤ l.length by
    exact h [] l
  intro seen l
  induction l generalizing seen with
  | nil => simp [dedupFirst.go]
  | cons n rest ih =>
      by_cases hn : n ∈ seen
      · simp [dedupFirst.go, hn]
        exact Nat.le_succ_of_le (ih seen)
      · simp [dedupFirst.go, hn]
        exact ih (n :: seen)

/-- A queue consisting solely of creation commands weighs its length. -/
theorem queueWeight_creates (cn : String) (f : String → CodeFunctionPatch)
    (names : List String) :
    queueWeight (names.map (fun n => CodeGenCommand.createMethod cn (f n))) = names.length := by
  induction names with
  | nil => rfl
  | cons n rest ih =>
      simp [queueWeight, cmdWeight] at ih ⊢
      omega

/-- The commands a single command pushes onto the queue weigh strictly less
than the command itself: creations weigh one each, there are at most as many
of them as call-shaped tokens in the text, and only `update_aspect` enqueues
at all. -/
theorem execCommand_enqueued_weight (s : CodebaseState) (cmd : CodeGenCommand) :
    queueWeight (execCommand s cmd).2 + 1 ≤ cmdWeight cmd := by
  cases cmd with
  | createMethod cn m => simp [execCommand, queueWeight, cmdWeight]
  | deleteMethod cn mn =>
      cases h : findMethodIndex s.codeFunctions mn <;>
        simp [execCommand, h, queueWeight, cmdWeight]
  | updateMethodCode cn mn v =>
      cases h : findMethodIndex s.codeFunctions mn <;>
        simp [execCommand, h, queueWeight, cmdWeight]
  | updateAspect cn mn asp v =>
      cases h : findMethodIndex s.codeFunctions mn with
      | none => simp [execCommand, h, queueWeight, cmdWeight]
      | some i =>
          by_cases hasp : asp = "implementation"
          · have hq : (execCommand s (.updateAspect cn mn asp v)).2 =
                ((dedupFirst (scanImplementationCalls v)).filter
                  (fun fnName => ! existsStartsWith s.codeFunctions fnName)).map
                  (fun fnName => CodeGenCommand.createMethod cn (autoCreatePatch fnName)) := by
              simp [execCommand, h, hasp]
            rw [hq, queueWeight_creates]
            have hx : ((dedupFirst (scanImplementationCalls v)).filter
                (fun fnName => ! existsStartsWith s.codeFunctions fnName)).length ≤
                (scanImplementationCalls v).length :=
              le_trans (List.length_filter_le _ _) (dedupFirst_length_le _)
            simp [cmdWeight]
            omega
          · simp [execCommand, h, hasp, cmdWeight, queueWeight]

/-- An empty-queue configuration is stationary under iteration. -/
theorem execStepN_drained : ∀ (n : Nat) (s : CodebaseState),
    execStepN n (s, []) = (s, [])
  | 0, _ => rfl
  | _ + 1, _ => rfl

/-- Iteration composes over fuel addition. -/
theorem execStepN_add : ∀ (n m : Nat) (cfg : CodebaseState × List CodeGenCommand),
    execStepN (n + m) cfg = execStepN m (execStepN n cfg) := by
  intro n
  induction n with
  | zero => intro m cfg; simp [execStepN]
  | succ k ih =>
      intro m cfg
      obtain ⟨s, q⟩ := cfg
      cases q with
      | nil =>
          rw [execStepN_drained, execStepN_drained]
          exact (execStepN_drained m s).symm
      | cons cmd rest =>
          have hstep : ∀ j, execStepN (j + 1) (s, cmd :: rest) =
              execStepN j ((execCommand s cmd).1, rest ++ (execCommand s cmd).2) := by
            intro j; rfl
          have : k + 1 + m = (k + m) + 1 := by omega
          rw [this, hstep (k + m), hstep k, ih m]

/-- Fuel at least the queue weight drains the queue. -/
theorem execStepN_drains_of_le : ∀ (n : Nat) (s : CodebaseState)
    (q : List CodeGenCommand), queueWeight q ≤ n → (execStepN n (s, q)).2 = [] := by
  intro n
  induction n with
  | zero =>
      intro s q h
      have := queueWeight_eq_zero q (Nat.le_zero.mp h)
      subst this
      rfl
  | succ k ih =>
      intro s q h
      cases q with
      | nil => rw [execStepN_drained]
      | cons cmd rest =>
          have hstep : execStepN (k + 1) (s, cmd :: rest) =
              execStepN k ((execCommand s cmd).1, rest ++ (execCommand s cmd).2) := rfl
          rw [hstep]
          apply ih
          have h1 := execCommand_enqueued_weight s cmd
          have h2 : queueWeight (cmd :: rest) = cmdWeight cmd + queueWeight rest := by
            simp [queueWeight]
          rw [queueWeight_append]
          omega

/-- Extra fuel beyond a draining amount changes nothing. -/
theorem execStepN_extend (n m : Nat) (cfg : CodebaseState × List CodeGenCommand)
    (h : (execStepN n cfg).2 = []) : execStepN (n + m) cfg = execStepN n cfg := by
  rw [execStepN_add]
  rcases hE : execStepN n cfg with ⟨s', q'⟩
  rw [hE] at h
  have h' : q' = [] := h
  subst h'
  exact execStepN_drained m s'

/-- The aspect walk of `calculateAspectsToGenerate` is `takeWhile` of the
not-locked predicate. -/
theorem aspectsLoop_eq_takeWhile (func : CodeFunction) (l : List CodeAspectType) :
    aspectsLoop func l =
      l.takeWhile (fun a => decide ((func.aspect a).state ≠ AspectState.LOCKED)) := by
  induction l with
  | nil => rfl
  | cons a rest ih =>
      by_cases ha : (func.aspect a).state = AspectState.LOCKED
      · simp [aspectsLoop, ha, List.takeWhile]
      · simp [aspectsLoop, ha, List.takeWhile, ih]

/-- `indexOf` locates each aspect at its progression position. -/
theorem indexOf_aspect (editedAspect : CodeAspectType) :
    ASPECT_PROGRESSION.indexOf? editedAspect = some (aspectIndex editedAspect) := by
  cases editedAspect <;> decide

/-- C3. For every function and edited aspect, the downstream computation
returns exactly the consecutive run of aspects of the fixed progression that
starts immediately after the edited aspect (at the edited aspect itself when
the reroll flag is set) and stops before the first aspect whose lifecycle is
locked. In particular, when the first `k` downstream aspects are not locked
and the next one is locked, exactly those `k` aspects are returned in
ascending order, and editing the last aspect (without reroll) or meeting a
lock immediately yields the empty list — these are the `takeWhile`
evaluations on the dropped progression suffix. -/
theorem downstream_aspects_run (editedAspect : CodeAspectType) (func : CodeFunction)
    (includeEditedAspect : Bool) :
    calculateAspectsToGenerate editedAspect func includeEditedAspect =
      (ASPECT_PROGRESSION.drop
          (if includeEditedAspect then aspectIndex editedAspect
           else aspectIndex editedAspect + 1)).takeWhile
        (fun a => decide ((func.aspect a).state ≠ AspectState.LOCKED)) := by
  unfold calculateAspectsToGenerate
  rw [indexOf_aspect]
  cases includeEditedAspect <;> simp [aspectsLoop_eq_takeWhile]

/-- C4 (amended core). The drain loop terminates on every finite initial
batch: `queueWeight initialCmds` iterations suffice to empty the queue. -/
theorem drain_terminates (s : CodebaseState) (initialCmds : List CodeGenCommand) :
    (execStepN (queueWeight initialCmds) (s, initialCmds)).2 = [] :=
  execStepN_drains_of_le _ s initialCmds (Nat.le_refl _)

/-- The imperative counter table of `buildEdges` computes the
count-of-earlier-occurrences indexing. -/
theorem buildEdgeRefsGo_eq_withLocalIndices (names : List String) :
    ∀ (fnCounts : String → Nat) (seen : List String),
      (∀ n, fnCounts n = seen.count n) →
      buildEdgeRefsGo names fnCounts = withLocalIndices.go names seen := by
  induction names with
  | nil => intro _ _ _; rfl
  | cons n rest ih =>
      intro fnCounts seen h
      simp only [buildEdgeRefsGo, withLocalIndices.go, h n]
      refine congrArg (fun t => (n, seen.count n) :: t) ?_
      apply ih
      intro m
      by_cases hm : m = n
      · subst hm
        simp [List.count_append, h m]
      · simp [List.count_append, hm, h m, List.count_singleton']

/-- Merging leaves the empty aspect slot rule: each aspect of the merge is the
merge of that aspect. -/
theorem applyFunctionPatch_aspect (f : CodeFunction) (p : CodeFunctionPatch)
    (a : CodeAspectType) :
    (applyFunctionPatch f p).aspect a = applyAspectPatch (f.aspect a) (p.field a) := by
  cases a <;> rfl

/-- An absent aspect spread keeps the aspect. -/
theorem applyAspectPatch_none (a : CodeAspect) : applyAspectPatch a none = a := rfl

/-- The computed-key partial carries nothing for any aspect other than the
one named by the key. -/
theorem aspectKeyPatch_field_none (aspect value : String) (a : CodeAspectType)
    (h : aspect ≠ a.value) : (aspectKeyPatch aspect value).field a = none := by
  cases a <;>
    simp only [CodeAspectType.value] at h <;>
    simp only [aspectKeyPatch, CodeFunctionPatch.field] <;>
    split_ifs <;> simp_all

/-- The element just appended sits at the old length. -/
theorem get?_append_singleton {α : Type} : ∀ (l : List α) (d : α),
    (l ++ [d]).get? l.length = some d
  | [], _ => rfl
  | _ :: l, d => get?_append_singleton l d

/-- Overwriting the just-appended slot replaces the appended element. -/
theorem set_append_singleton {α : Type} : ∀ (l : List α) (d x : α),
    (l ++ [d]).set l.length x = l ++ [x]
  | [], _, _ => rfl
  | b :: l, d, x => by
      have h := set_append_singleton l d x
      simp [List.set, h]

/-- Merging a fully-populated partial replaces every field. -/
theorem applyFunctionPatch_full (f g : CodeFunction) :
    applyFunctionPatch f (patchOfFunction g) = g := rfl

/-- Executing `CREATE_METHOD` appends exactly the function built from the
command's data: the two-step create-empty-then-populate collapses to one
append. -/
theorem execCommand_create (s : CodebaseState) (cn : String) (m : CodeFunctionPatch) :
    execCommand s (.createMethod cn m) =
      ({ s with codeFunctions := s.codeFunctions ++ [createCodeFunction m] }, []) := by
  simp only [execCommand, addCodeFunction, updateCodeFunction]
  have hlen : (s.codeFunctions ++ [createCodeFunction {}]).length - 1 =
      s.codeFunctions.length := by
    simp
  rw [hlen, get?_append_singleton]
  simp only [applyFunctionPatch_full, set_append_singleton]

/-- C1 (amended). Command application preserves the text of a locked aspect
except for an `update_aspect` command that directly targets it: an
`update_aspect` command leaves the text of every locked aspect unchanged
unless its `methodName` resolves — by exact first identifier match — to that
very function and its `aspect` key names that very aspect; `create_method`
only appends, and `update_method_code` only replaces the rendered-code
field, so neither changes any aspect text of the function. (The
counterexample shows that in the direct-target case the locked text is
overwritten: the executor performs no lock check.) -/
theorem locked_text_unchanged_unless_direct_target (s : CodebaseState)
    (cn mn asp v : String) (m : CodeFunctionPatch) (i : Nat) (a : CodeAspectType)
    (hlocked : (s.codeFunctions.get? i).map (fun f => (f.aspect a).state) =
      some AspectState.LOCKED) :
    ((findMethodIndex s.codeFunctions mn ≠ some i ∨ asp ≠ a.value) →
      ((execCommand s (.updateAspect cn mn asp v)).1.codeFunctions.get? i).map
          (fun f => (f.aspect a).descriptor) =
        (s.codeFunctions.get? i).map (fun f => (f.aspect a).descriptor)) ∧
    (((execCommand s (.createMethod cn m)).1.codeFunctions.get? i).map
        (fun f => (f.aspect a).descriptor) =
      (s.codeFunctions.get? i).map (fun f => (f.aspect a).descriptor)) ∧
    (((execCommand s (.updateMethodCode cn mn v)).1.codeFunctions.get? i).map
        (fun f => (f.aspect a).descriptor) =
      (s.codeFunctions.get? i).map (fun f => (f.aspect a).descriptor)) := by
  have hex : ∃ f, s.codeFunctions.get? i = some f := by
    cases hget : s.codeFunctions.get? i with
    | none => rw [hget] at hlocked; cases hlocked
    | some f => exact ⟨f, rfl⟩
  obtain ⟨flocked, hgeti⟩ := hex
  have hleni : i < s.codeFunctions.length := (List.get?_eq_some.mp hgeti).1
  refine ⟨?_, ?_, ?_⟩
  · intro hmiss
    cases hfind : findMethodIndex s.codeFunctions mn with
    | none => simp [execCommand, hfind]
    | some j =>
        have hstore : (execCommand s (.updateAspect cn mn asp v)).1 =
            updateCodeFunction j (aspectKeyPatch asp v) s := by
          by_cases hasp : asp = "implementation" <;> simp [execCommand, hfind, hasp]
        rw [hstore]
        unfold updateCodeFunction
        cases hget : s.codeFunctions.get? j with
        | none => rfl
        | some f =>
            by_cases hij : j = i
            · subst hij
              have hasp : asp ≠ a.value := by
                rcases hmiss with hm | hm
                · exact absurd hfind hm
                · exact hm
              have hlen : j < s.codeFunctions.length := (List.get?_eq_some.mp hget).1
              simp only
              rw [List.get?_set_eq_of_lt _ hlen, hget]
              have haspect : (applyFunctionPatch f (aspectKeyPatch asp v)).aspect a =
                  f.aspect a := by
                rw [applyFunctionPatch_aspect, aspectKeyPatch_field_none asp v a hasp,
                  applyAspectPatch_none]
              simp [haspect]
            · simp only
              rw [List.get?_set_ne _ _ hij]
  · rw [execCommand_create]
    simp only
    rw [List.get?_append hleni]
  · cases hfind : findMethodIndex s.codeFunctions mn with
    | none => simp [execCommand, hfind]
    | some j =>
        simp only [execCommand, hfind]
        unfold updateCodeFunction
        cases hget : s.codeFunctions.get? j with
        | none => rfl
        | some g =>
            by_cases hij : j = i
            · subst hij
              have hlen : j < s.codeFunctions.length := (List.get?_eq_some.mp hget).1
              simp only
              rw [List.get?_set_eq_of_lt _ hlen, hget]
              have haspect : (applyFunctionPatch g { code := some v }).aspect a =
                  g.aspect a := by
                rw [applyFunctionPatch_aspect]
                cases a <;> rfl
              simp [haspect]
            · simp only
              rw [List.get?_set_ne _ _ hij]

/-- C1 (counterexample). A store holds one function `f` whose `signature`
aspect is locked with text `sig`; a single validated `update_aspect` command
targeting `f.signature` is executed, and afterwards the locked aspect's text
reads `overwritten`: the claimed lock inviolability fails at this input. -/
theorem locked_text_overwritten_counterexample :
    ({ projectName := "p", codeFunctions :=
        [{ identifier := { descriptor := "f", state := AspectState.EDITED }
           signature := { descriptor := "sig", state := AspectState.LOCKED }
           specification := { descriptor := "", state := AspectState.UNSET }
           implementation := { descriptor := "", state := AspectState.UNSET }
           code := "" }] } : CodebaseState).codeFunctions.map
        (fun g => (g.signature.descriptor, g.signature.state)) =
      [("sig", AspectState.LOCKED)] ∧
    (applyCodegenCommands
        [CodeGenCommand.updateAspect "C" "f" "signature" "overwritten"]
        { projectName := "p", codeFunctions :=
            [{ identifier := { descriptor := "f", state := AspectState.EDITED }
               signature := { descriptor := "sig", state := AspectState.LOCKED }
               specification := { descriptor := "", state := AspectState.UNSET }
               implementation := { descriptor := "", state := AspectState.UNSET }
               code := "" }] }).codeFunctions.map
        (fun g => (g.signature.descriptor, g.signature.state)) =
      [("overwritten", AspectState.AUTOGEN)] := by
  exact ⟨rfl, rfl⟩

/-- Witness instantiating the amended lock statement on a store whose
function `f` has a locked `specification`: an `update_aspect` on `signature`,
a `create_method`, and an `update_method_code` all leave the locked text. -/
theorem locked_text_unchanged_witness :
    ((findMethodIndex
          ({ projectName := "p", codeFunctions :=
              [{ identifier := { descriptor := "f", state := AspectState.EDITED }
                 signature := { descriptor := "", state := AspectState.UNSET }
                 specification := { descriptor := "spec", state := AspectState.LOCKED }
                 implementation := { descriptor := "", state := AspectState.UNSET }
                 code := "" }] } : CodebaseState).codeFunctions "f" ≠ some 0 ∨
        "signature" ≠ CodeAspectType.SPECIFICATION.value) →
      ((execCommand
          { projectName := "p", codeFunctions :=
              [{ identifier := { descriptor := "f", state := AspectState.EDITED }
                 signature := { descriptor := "", state := AspectState.UNSET }
                 specification := { descriptor := "spec", state := AspectState.LOCKED }
                 implementation := { descriptor := "", state := AspectState.UNSET }
                 code := "" }] }
          (.updateAspect "C" "f" "signature" "new")).1.codeFunctions.get? 0).map
          (fun f => (f.aspect CodeAspectType.SPECIFICATION).descriptor) =
        (({ projectName := "p", codeFunctions :=
              [{ identifier := { descriptor := "f", state := AspectState.EDITED }
                 signature := { descriptor := "", state := AspectState.UNSET }
                 specification := { descriptor := "spec", state := AspectState.LOCKED }
                 implementation := { descriptor := "", state := AspectState.UNSET }
                 code := "" }] } : CodebaseState).codeFunctions.get? 0).map
          (fun f => (f.aspect CodeAspectType.SPECIFICATION).descriptor)) ∧
    (((execCommand
          { projectName := "p", codeFunctions :=
              [{ identifier := { descriptor := "f", state := AspectState.EDITED }
                 signature := { descriptor := "", state := AspectState.UNSET }
                 specification := { descriptor := "spec", state := AspectState.LOCKED }
                 implementation := { descriptor := "", state := AspectState.UNSET }
                 code := "" }] }
          (.createMethod "C" (autoCreatePatch "x"))).1.codeFunctions.get? 0).map
          (fun f => (f.aspect CodeAspectType.SPECIFICATION).descriptor) =
        (({ projectName := "p", codeFunctions :=
              [{ identifier := { descriptor := "f", state := AspectState.EDITED }
                 signature := { descriptor := "", state := AspectState.UNSET }
                 specification := { descriptor := "spec", state := AspectState.LOCKED }
                 implementation := { descriptor := "", state := AspectState.UNSET }
                 code := "" }] } : CodebaseState).codeFunctions.get? 0).map
          (fun f => (f.aspect CodeAspectType.SPECIFICATION).descriptor)) ∧
    (((execCommand
          { projectName := "p", codeFunctions :=
              [{ identifier := { descriptor := "f", state := AspectState.EDITED }
                 signature := { descriptor := "", state := AspectState.UNSET }
                 specification := { descriptor := "spec", state := AspectState.LOCKED }
                 implementation := { descriptor := "", state := AspectState.UNSET }
                 code := "" }] }
          (.updateMethodCode "C" "f" "new")).1.codeFunctions.get? 0).map
          (fun f => (f.aspect CodeAspectType.SPECIFICATION).descriptor) =
        (({ projectName := "p", codeFunctions :=
              [{ identifier := { descriptor := "f", state := AspectState.EDITED }
                 signature := { descriptor := "", state := AspectState.UNSET }
                 specification := { descriptor := "spec", state := AspectState.LOCKED }
                 implementation := { descriptor := "", state := AspectState.UNSET }
                 code := "" }] } : CodebaseState).codeFunctions.get? 0).map
          (fun f => (f.aspect CodeAspectType.SPECIFICATION).descriptor)) :=
  locked_text_unchanged_unless_direct_target _ "C" "f" "signature" "new"
    (autoCreatePatch "x") 0 CodeAspectType.SPECIFICATION (by rfl)

/-- Draining a queue of creation commands appends the created functions in
queue order. -/
theorem execStepN_create_queue (cn : String) : ∀ (ms : List CodeFunctionPatch)
    (s : CodebaseState),
    execStepN ms.length (s, ms.map (fun m => CodeGenCommand.createMethod cn m)) =
      ({ s with codeFunctions := s.codeFunctions ++ ms.map createCodeFunction }, []) := by
  intro ms
  induction ms with
  | nil => intro s; simp [execStepN]
  | cons m rest ih =>
      intro s
      have hstep : execStepN (rest.length + 1)
          (s, (CodeGenCommand.createMethod cn m) :: rest.map (fun m => CodeGenCommand.createMethod cn m)) =
          execStepN rest.length
            ((execCommand s (.createMethod cn m)).1,
              rest.map (fun m => CodeGenCommand.createMethod cn m) ++
                (execCommand s (.createMethod cn m)).2) := rfl
      simp only [List.map_cons, List.length_cons]
      rw [hstep, execCommand_create]
      simp only [List.append_nil]
      rw [ih]
      simp [List.append_assoc]

/-- Unfolding the deduplication on an already-seen head. -/
theorem dedupFirst_go_cons_mem (seen : List String) (n : String) (rest : List String)
    (h : n ∈ seen) : dedupFirst.go seen (n :: rest) = dedupFirst.go seen rest := by
  simp [dedupFirst.go, h]

/-- Unfolding the deduplication on a fresh head. -/
theorem dedupFirst_go_cons_not_mem (seen : List String) (n : String) (rest : List String)
    (h : n ∉ seen) : dedupFirst.go seen (n :: rest) = n :: dedupFirst.go (n :: seen) rest := by
  simp [dedupFirst.go, h]

/-- The set-based deduplication keeps no repeated name, and keeps nothing
that was already seen. -/
theorem dedupFirst_go_nodup : ∀ (l : List String) (seen : List String),
    (dedupFirst.go seen l).Nodup ∧ ∀ n ∈ dedupFirst.go seen l, n ∉ seen := by
  intro l
  induction l with
  | nil => intro seen; simp [dedupFirst.go]
  | cons n rest ih =>
      intro seen
      by_cases hn : n ∈ seen
      · rw [dedupFirst_go_cons_mem seen n rest hn]
        exact ih seen
      · rw [dedupFirst_go_cons_not_mem seen n rest hn]
        have h := ih (n :: seen)
        constructor
        · refine List.nodup_cons.mpr ⟨?_, h.1⟩
          intro hmem
          exact (h.2 n hmem) (List.mem_cons_self n seen)
        · intro x hx
          rcases List.mem_cons.mp hx with h1 | h2
          · exact h1 ▸ hn
          · intro hxs
            exact (h.2 x h2) (List.mem_cons_of_mem n hxs)

/-- The deduplicated scan has no duplicates. -/
theorem dedupFirst_nodup (l : List String) : (dedupFirst l).Nodup :=
  (dedupFirst_go_nodup l []).1

/-- Every scanned name survives deduplication. -/
theorem mem_dedupFirst : ∀ (l : List String) (n : String), n ∈ l → n ∈ dedupFirst l := by
  suffices h : ∀ (l : List String) (seen : List String) (n : String),
      n ∈ l → n ∉ seen → n ∈ dedupFirst.go seen l by
    intro l n hn
    exact h l [] n hn (by simp)
  intro l
  induction l with
  | nil => intro seen n hn; simp at hn
  | cons m rest ih =>
      intro seen n hn hns
      by_cases hm : m ∈ seen
      · rw [dedupFirst_go_cons_mem seen m rest hm]
        rcases List.mem_cons.mp hn with h1 | h2
        · exact absurd (h1 ▸ hm) hns
        · exact ih seen n h2 hns
      · rw [dedupFirst_go_cons_not_mem seen m rest hm]
        rcases List.mem_cons.mp hn with h1 | h2
        · exact h1 ▸ List.mem_cons_self _ _
        · by_cases hnm : n = m
          · exact hnm ▸ List.mem_cons_self _ _
          · refine List.mem_cons_of_mem _ (ih (m :: seen) n h2 ?_)
            intro hx
            rcases List.mem_cons.mp hx with h3 | h4
            · exact hnm h3
            · exact hns h4

/-- Executing a resolved `update_aspect(implementation)` command updates the
target and enqueues one creation per deduplicated unresolved name. -/
theorem execCommand_update_impl (s : CodebaseState) (cn mn v : String) (i : Nat)
    (hfind : findMethodIndex s.codeFunctions mn = some i) :
    execCommand s (.updateAspect cn mn "implementation" v) =
      (updateCodeFunction i (aspectKeyPatch "implementation" v) s,
        ((dedupFirst (scanImplementationCalls v)).filter
          (fun n => ! existsStartsWith s.codeFunctions n)).map
          (fun n => CodeGenCommand.createMethod cn (autoCreatePatch n))) := by
  simp [execCommand, hfind]

/-- Draining an update-then-creations queue: with enough fuel, the pending
creation commands append exactly their functions in order. -/
theorem drain_creates_append (s' : CodebaseState) (cn : String) (names : List String)
    (k : Nat) :
    execStepN (names.length + k)
        (s', names.map (fun n => CodeGenCommand.createMethod cn (autoCreatePatch n))) =
      ({ s' with codeFunctions := s'.codeFunctions ++ names.map autoCreatedFunction }, []) := by
  rw [execStepN_add]
  have hm : names.map (fun n => CodeGenCommand.createMethod cn (autoCreatePatch n)) =
      (names.map autoCreatePatch).map (fun m => CodeGenCommand.createMethod cn m) := by
    rw [List.map_map]
    rfl
  rw [hm]
  have hlen : names.length = (names.map autoCreatePatch).length :=
    (List.length_map _ _).symm
  rw [hlen, execStepN_create_queue, execStepN_drained]
  have hmm : (names.map autoCreatePatch).map createCodeFunction =
      names.map autoCreatedFunction := by
    rw [List.map_map]
    rfl
  rw [hmm]

/-- Draining a single resolved `update_aspect(implementation)` command: the
target function is updated and exactly one function per deduplicated
unresolved call-shaped name of the text is appended, in first-occurrence
order. -/
theorem drain_single_update_impl (s : CodebaseState) (cn mn v : String) (i : Nat)
    (hfind : findMethodIndex s.codeFunctions mn = some i) :
    applyCodegenCommands [.updateAspect cn mn "implementation" v] s =
      { updateCodeFunction i (aspectKeyPatch "implementation" v) s with
          codeFunctions :=
            (updateCodeFunction i (aspectKeyPatch "implementation" v) s).codeFunctions ++
              ((dedupFirst (scanImplementationCalls v)).filter
                (fun n => ! existsStartsWith s.codeFunctions n)).map autoCreatedFunction } := by
  have hwt : queueWeight [CodeGenCommand.updateAspect cn mn "implementation" v] =
      (scanImplementationCalls v).length + 1 := by
    simp [queueWeight, cmdWeight]
    omega
  have hle : ((dedupFirst (scanImplementationCalls v)).filter
      (fun n => ! existsStartsWith s.codeFunctions n)).length ≤
      (scanImplementationCalls v).length :=
    le_trans (List.length_filter_le _ _) (dedupFirst_length_le _)
  obtain ⟨k, hk⟩ := Nat.exists_eq_add_of_le hle
  have hstep : ∀ j, execStepN (j + 1)
      (s, [CodeGenCommand.updateAspect cn mn "implementation" v]) =
      execStepN j
        ((execCommand s (.updateAspect cn mn "implementation" v)).1,
          [] ++ (execCommand s (.updateAspect cn mn "implementation" v)).2) := by
    intro j
    rfl
  unfold applyCodegenCommands
  rw [hwt, hstep, execCommand_update_impl s cn mn v i hfind]
  simp only [List.nil_append]
  rw [hk, drain_creates_append]

/-- C2 (amended core). For a batch consisting of one resolved
`update_aspect(implementation)` command, draining the queue creates exactly
one function per distinct unresolved call-shaped name of its text — the
deduplicated, still-unresolved names in first-occurrence order, with no
duplicates among them. (With two or more commands the same name can be
created once per mentioning command: see the counterexample.) -/
theorem single_batch_creates_distinct_unresolved (s : CodebaseState) (cn mn v : String)
    (i : Nat) (hfind : findMethodIndex s.codeFunctions mn = some i) :
    (applyCodegenCommands [.updateAspect cn mn "implementation" v] s).codeFunctions =
      (updateCodeFunction i (aspectKeyPatch "implementation" v) s).codeFunctions ++
        ((dedupFirst (scanImplementationCalls v)).filter
          (fun n => ! existsStartsWith s.codeFunctions n)).map autoCreatedFunction ∧
    ((dedupFirst (scanImplementationCalls v)).filter
      (fun n => ! existsStartsWith s.codeFunctions n)).Nodup := by
  constructor
  · rw [drain_single_update_impl s cn mn v i hfind]
  · exact (dedupFirst_nodup _).filter _

/-- C2 (counterexample). An initial queue of `N = 2` validated
`update_aspect(implementation)` commands whose combined texts mention `M = 1`
distinct unresolved name (`helper`, unresolved in the initial store) drains
to a store holding `2` functions named `helper` — two creations were executed
for the same name within one drain cycle, not `M = 1`. -/
theorem duplicate_creation_counterexample :
    dupScenarioBatch.length = 2 ∧
    dedupFirst (scanImplementationCalls "helper()") = ["helper"] ∧
    existsStartsWith dupScenarioStore.codeFunctions "helper" = false ∧
    ((applyCodegenCommands dupScenarioBatch dupScenarioStore).codeFunctions.filter
      (fun f => f.identifier.descriptor == "helper")).length = 2 :=
  ⟨rfl, rfl, rfl, rfl⟩

/-- Witness instantiating the single-batch creation statement on the concrete
duplicate-scenario store with the command targeting `f`. -/
theorem single_batch_creates_witness :
    (applyCodegenCommands [.updateAspect "C" "f" "implementation" "helper()"]
        dupScenarioStore).codeFunctions =
      (updateCodeFunction 0 (aspectKeyPatch "implementation" "helper()")
          dupScenarioStore).codeFunctions ++
        ((dedupFirst (scanImplementationCalls "helper()")).filter
          (fun n => ! existsStartsWith dupScenarioStore.codeFunctions n)).map
          autoCreatedFunction ∧
    ((dedupFirst (scanImplementationCalls "helper()")).filter
      (fun n => ! existsStartsWith dupScenarioStore.codeFunctions n)).Nodup :=
  single_batch_creates_distinct_unresolved dupScenarioStore "C" "f" "helper()" 0 rfl

/-- C4 (counterexample to the name-set-growth justification). In the
duplicate scenario, after three steps the queue still holds a creation
command for `helper` while the store already contains a function named
`helper`; executing that creation (step four) grows the store by one function
but leaves the set of known function names unchanged. -/
theorem creation_without_name_growth_counterexample :
    (execStepN 3 (dupScenarioStore, dupScenarioBatch)).2 =
      [CodeGenCommand.createMethod "C" (autoCreatePatch "helper")] ∧
    (execStepN 4 (dupScenarioStore, dupScenarioBatch)).1.codeFunctions.length =
      (execStepN 3 (dupScenarioStore, dupScenarioBatch)).1.codeFunctions.length + 1 ∧
    ((execStepN 4 (dupScenarioStore, dupScenarioBatch)).1.codeFunctions.map
        (fun f => f.identifier.descriptor)).dedup =
      ((execStepN 3 (dupScenarioStore, dupScenarioBatch)).1.codeFunctions.map
        (fun f => f.identifier.descriptor)).dedup :=
  ⟨rfl, rfl, rfl⟩

/-- C7. A resolved `update_aspect(implementation)` command whose text
mentions a call-shaped name with no `startsWith` match in the store enqueues
a creation command for that name, and after the queue drains the store
contains a function whose identifier is the name with lifecycle `autogen` and
whose signature, specification and implementation are unset with empty text
(and empty rendered code). -/
theorem implementation_scan_autocreates (s : CodebaseState) (cn mn v fnName : String)
    (i : Nat) (hfind : findMethodIndex s.codeFunctions mn = some i)
    (hscan : fnName ∈ scanImplementationCalls v)
    (hnew : existsStartsWith s.codeFunctions fnName = false) :
    CodeGenCommand.createMethod cn (autoCreatePatch fnName) ∈
      (execCommand s (.updateAspect cn mn "implementation" v)).2 ∧
    ({ identifier := { descriptor := fnName, state := AspectState.AUTOGEN }
       signature := { descriptor := "", state := AspectState.UNSET }
       specification := { descriptor := "", state := AspectState.UNSET }
       implementation := { descriptor := "", state := AspectState.UNSET }
       code := "" } : CodeFunction) ∈
      (applyCodegenCommands [.updateAspect cn mn "implementation" v] s).codeFunctions := by
  have hmemnames : fnName ∈ (dedupFirst (scanImplementationCalls v)).filter
      (fun n => ! existsStartsWith s.codeFunctions n) := by
    refine List.mem_filter.mpr ⟨mem_dedupFirst _ _ hscan, ?_⟩
    simp [hnew]
  constructor
  · rw [execCommand_update_impl s cn mn v i hfind]
    exact List.mem_map.mpr ⟨fnName, hmemnames, rfl⟩
  · rw [drain_single_update_impl s cn mn v i hfind]
    simp only
    refine List.mem_append.mpr (Or.inr ?_)
    exact List.mem_map.mpr ⟨fnName, hmemnames, rfl⟩

/-- Witness: updating the implementation of `start` with text `helper(1)`
creates the `helper` function record in the drained store. -/
theorem implementation_scan_autocreates_witness :
    CodeGenCommand.createMethod "C" (autoCreatePatch "helper") ∈
      (execCommand { projectName := "p", codeFunctions := [plainFunction "start"] }
        (.updateAspect "C" "start" "implementation" "helper(1)")).2 ∧
    ({ identifier := { descriptor := "helper", state := AspectState.AUTOGEN }
       signature := { descriptor := "", state := AspectState.UNSET }
       specification := { descriptor := "", state := AspectState.UNSET }
       implementation := { descriptor := "", state := AspectState.UNSET }
       code := "" } : CodeFunction) ∈
      (applyCodegenCommands [.updateAspect "C" "start" "implementation" "helper(1)"]
        { projectName := "p", codeFunctions := [plainFunction "start"] }).codeFunctions :=
  implementation_scan_autocreates
    { projectName := "p", codeFunctions := [plainFunction "start"] }
    "C" "start" "helper(1)" "helper" 0 rfl (by decide) rfl

/-- A command that neither changes the store nor enqueues anything can be
dropped from the front of the queue. -/
theorem applyCodegenCommands_cons_skip (s : CodebaseState) (cmd : CodeGenCommand)
    (rest : List CodeGenCommand) (h : execCommand s cmd = (s, [])) :
    applyCodegenCommands (cmd :: rest) s = applyCodegenCommands rest s := by
  unfold applyCodegenCommands
  have hq : queueWeight (cmd :: rest) = queueWeight rest + (cmdWeight cmd - 1) + 1 := by
    have := cmdWeight_pos cmd
    simp [queueWeight]
    omega
  rw [hq]
  have hstep : execStepN (queueWeight rest + (cmdWeight cmd - 1) + 1) (s, cmd :: rest) =
      execStepN (queueWeight rest + (cmdWeight cmd - 1))
        ((execCommand s cmd).1, rest ++ (execCommand s cmd).2) := rfl
  rw [hstep, h]
  simp only [List.append_nil]
  rw [execStepN_extend (queueWeight rest) (cmdWeight cmd - 1) (s, rest)
    (execStepN_drains_of_le _ s rest (Nat.le_refl _))]

/-- C8. Executing a `delete_method`, `update_aspect` or `update_method_code`
command whose target name matches no function identifier exactly is a skip:
the function is total (nothing is thrown beyond the logged warning, which is
state-free), the store is unchanged, nothing is enqueued, and draining
continues with the remaining queue exactly as if the command were absent. -/
theorem unresolved_reference_skipped (s : CodebaseState) (cn mn asp v : String)
    (rest : List CodeGenCommand)
    (h : ∀ f ∈ s.codeFunctions, f.identifier.descriptor ≠ mn) :
    execCommand s (.deleteMethod cn mn) = (s, []) ∧
    execCommand s (.updateAspect cn mn asp v) = (s, []) ∧
    execCommand s (.updateMethodCode cn mn v) = (s, []) ∧
    applyCodegenCommands (.deleteMethod cn mn :: rest) s = applyCodegenCommands rest s ∧
    applyCodegenCommands (.updateAspect cn mn asp v :: rest) s =
      applyCodegenCommands rest s ∧
    applyCodegenCommands (.updateMethodCode cn mn v :: rest) s =
      applyCodegenCommands rest s := by
  have hnone := findMethodIndex_eq_none s.codeFunctions mn h
  have h1 : execCommand s (.deleteMethod cn mn) = (s, []) := by simp [execCommand, hnone]
  have h2 : execCommand s (.updateAspect cn mn asp v) = (s, []) := by
    simp [execCommand, hnone]
  have h3 : execCommand s (.updateMethodCode cn mn v) = (s, []) := by
    simp [execCommand, hnone]
  exact ⟨h1, h2, h3,
    applyCodegenCommands_cons_skip s _ rest h1,
    applyCodegenCommands_cons_skip s _ rest h2,
    applyCodegenCommands_cons_skip s _ rest h3⟩

/-- Witness: commands targeting the absent name `ghost` in the two-function
store are skipped and the queue continues. -/
theorem unresolved_reference_skipped_witness :
    execCommand dupScenarioStore (.deleteMethod "C" "ghost") = (dupScenarioStore, []) ∧
    execCommand dupScenarioStore (.updateAspect "C" "ghost" "signature" "x") =
      (dupScenarioStore, []) ∧
    execCommand dupScenarioStore (.updateMethodCode "C" "ghost" "x") =
      (dupScenarioStore, []) ∧
    applyCodegenCommands (.deleteMethod "C" "ghost" :: dupScenarioBatch) dupScenarioStore =
      applyCodegenCommands dupScenarioBatch dupScenarioStore ∧
    applyCodegenCommands (.updateAspect "C" "ghost" "signature" "x" :: dupScenarioBatch)
        dupScenarioStore =
      applyCodegenCommands dupScenarioBatch dupScenarioStore ∧
    applyCodegenCommands (.updateMethodCode "C" "ghost" "x" :: dupScenarioBatch)
        dupScenarioStore =
      applyCodegenCommands dupScenarioBatch dupScenarioStore :=
  unresolved_reference_skipped dupScenarioStore "C" "ghost" "signature" "x"
    dupScenarioBatch (by decide)

/-- C10. An `update_aspect` command whose `aspect` string is not one of the
four aspect names is accepted by the validator (which only checks that the
field is a string), and executing it — whether or not the target resolves —
leaves the store entirely unchanged and enqueues nothing: the computed key is
dropped by `createCodeFunction`, so every aspect and the `code` field of the
resolved function keep their values. -/
theorem unknown_aspect_accepted_and_dropped (asp : String)
    (h : asp ∉ aspectNameStrings) :
    (∀ mn v : String, isValidCodeGenCommand (JsValue.obj
      [("type", .str "update_aspect"), ("methodName", .str mn),
       ("aspect", .str asp), ("value", .str v)]) = true) ∧
    (∀ (s : CodebaseState) (cn mn v : String),
      execCommand s (.updateAspect cn mn asp v) = (s, [])) := by
  have himpl : asp ≠ "implementation" := by
    intro he
    exact h (by simp [aspectNameStrings, he])
  constructor
  · intro mn v
    rfl
  · intro s cn mn v
    cases hfind : findMethodIndex s.codeFunctions mn with
    | none => simp [execCommand, hfind]
    | some i =>
        have hpatch := aspectKeyPatch_unknown asp v h
        simp [execCommand, hfind, himpl, hpatch, updateCodeFunction_empty]

/-- Witness: the unknown aspect string `flavor` is accepted by the validator
and its execution against the two-function store changes nothing. -/
theorem unknown_aspect_witness :
    isValidCodeGenCommand (JsValue.obj
      [("type", .str "update_aspect"), ("methodName", .str "f"),
       ("aspect", .str "flavor"), ("value", .str "x")]) = true ∧
    execCommand dupScenarioStore (.updateAspect "C" "f" "flavor" "x") =
      (dupScenarioStore, []) :=
  ⟨(unknown_aspect_accepted_and_dropped "flavor" (by decide)).1 "f" "x",
   (unknown_aspect_accepted_and_dropped "flavor" (by decide)).2 dupScenarioStore "C" "f" "x"⟩

/-- C5 (amended). The validator is a pure total Lean function. It accepts
every object exactly matching one of the four command shapes with correctly
typed required fields, regardless of extra unknown fields, and rejects every
object whose `type` field is missing, non-string, or not one of the four
recognized tags. (It does not, however, reject every object with a mistyped
required field: per recognized tag it checks only shallow conditions —
`update_aspect` needs `methodName`/`aspect`/`value` to be strings with
`className` unchecked and `aspect` unconstrained, and `create_method` needs
only a truthy `method` — see the counterexample.) -/
theorem validator_accepts_shapes_rejects_unknown_type :
    (∀ v : JsValue, specCommandShape v = true → isValidCodeGenCommand v = true) ∧
    (∀ v : JsValue, hasRecognizedCommandType v = false →
      isValidCodeGenCommand v = false) := by
  constructor
  · intro v h
    cases v with
    | obj fields =>
        simp only [specCommandShape] at h
        cases htype : (JsValue.obj fields).getField "type" with
        | str t =>
            simp only [htype] at h
            simp only [isValidCodeGenCommand, htype, JsValue.isStr, JsValue.typeName,
              JsValue.truthy]
            simp only [bne_self_eq_false, Bool.or_false, Bool.not_true, Bool.false_or,
              Bool.not_false, if_false]
            split_ifs at h with h1 h2 h3 h4
            · simp only [Bool.and_eq_true] at h
              obtain ⟨⟨⟨hcn, hmn⟩, hasp⟩, hval⟩ := h
              simp only [JsValue.isStr, JsValue.typeName, decide_eq_true_eq] at hmn hval
              simp only [h1, if_true]
              cases ha : (JsValue.obj fields).getField "aspect" with
              | str a => simp [JsValue.isStr, JsValue.typeName, hmn, hval]
              | null => rw [ha] at hasp; simp at hasp
              | undefined => rw [ha] at hasp; simp at hasp
              | bool b => rw [ha] at hasp; simp at hasp
              | num n => rw [ha] at hasp; simp at hasp
              | arr xs => rw [ha] at hasp; simp at hasp
              | obj o => rw [ha] at hasp; simp at hasp
            · simp only [Bool.and_eq_true] at h
              obtain ⟨hcn, hm⟩ := h
              simp only [JsValue.isStr, JsValue.typeName, decide_eq_true_eq] at hcn
              simp only [h1, h2, if_true, if_false]
              cases hm2 : (JsValue.obj fields).getField "method" with
              | obj mf => simp [JsValue.truthy, JsValue.isStr, JsValue.typeName, hcn]
              | null => rw [hm2] at hm; simp at hm
              | undefined => rw [hm2] at hm; simp at hm
              | bool b => rw [hm2] at hm; simp at hm
              | num n => rw [hm2] at hm; simp at hm
              | arr xs => rw [hm2] at hm; simp at hm
              | str st => rw [hm2] at hm; simp at hm
            · simp only [Bool.and_eq_true] at h
              obtain ⟨hcn, hmn⟩ := h
              simp only [JsValue.isStr, JsValue.typeName, decide_eq_true_eq] at hcn hmn
              simp [h1, h2, h3, JsValue.isStr, JsValue.typeName, hcn, hmn]
            · simp only [Bool.and_eq_true] at h
              obtain ⟨⟨hcn, hmn⟩, hval⟩ := h
              simp only [JsValue.isStr, JsValue.typeName, decide_eq_true_eq] at hcn hmn hval
              simp [h1, h2, h3, h4, JsValue.isStr, JsValue.typeName, hcn, hmn, hval]
        | null => rw [htype] at h; simp at h
        | undefined => rw [htype] at h; simp at h
        | bool b => rw [htype] at h; simp at h
        | num n => rw [htype] at h; simp at h
        | arr xs => rw [htype] at h; simp at h
        | obj o => rw [htype] at h; simp at h
    | null => simp [specCommandShape] at h
    | undefined => simp [specCommandShape] at h
    | bool b => simp [specCommandShape] at h
    | num n => simp [specCommandShape] at h
    | str s => simp [specCommandShape] at h
    | arr xs => simp [specCommandShape] at h
  · intro v h
    cases htype : v.getField "type" with
    | str t =>
        simp only [hasRecognizedCommandType, htype] at h
        simp only [Bool.or_eq_false_iff, beq_eq_false_iff_ne] at h
        obtain ⟨⟨⟨ha, hb⟩, hc⟩, hd⟩ := h
        simp [isValidCodeGenCommand, htype, ha, hb, hc, hd]
    | null => simp [isValidCodeGenCommand, htype, JsValue.isStr, JsValue.typeName]
    | undefined => simp [isValidCodeGenCommand, htype, JsValue.isStr, JsValue.typeName]
    | bool b => simp [isValidCodeGenCommand, htype, JsValue.isStr, JsValue.typeName]
    | num n => simp [isValidCodeGenCommand, htype, JsValue.isStr, JsValue.typeName]
    | arr xs => simp [isValidCodeGenCommand, htype, JsValue.isStr, JsValue.typeName]
    | obj o => simp [isValidCodeGenCommand, htype, JsValue.isStr, JsValue.typeName]

/-- C5 (counterexample). A `create_method` candidate whose required `method`
field is the number `7` — mistyped under every reading of the command shapes,
which demand a function record — is accepted by the validator, because the
validator only tests `method` for truthiness. The claim that every object
with a mistyped required field is rejected fails at this input. -/
theorem mistyped_method_accepted_counterexample :
    isValidCodeGenCommand (JsValue.obj
      [("type", .str "create_method"), ("className", .str "c"),
       ("method", .num 7)]) = true ∧
    specCommandShape (JsValue.obj
      [("type", .str "create_method"), ("className", .str "c"),
       ("method", .num 7)]) = false :=
  ⟨rfl, rfl⟩

/-- Witness instantiating both validator directions: a fully well-shaped
`update_aspect` object with an extra field is accepted; an object with an
unrecognized tag is rejected. -/
theorem validator_witness :
    isValidCodeGenCommand (JsValue.obj
      [("type", .str "update_aspect"), ("className", .str "c"),
       ("methodName", .str "f"), ("aspect", .str "signature"),
       ("value", .str "x"), ("extra", .num 3)]) = true ∧
    isValidCodeGenCommand (JsValue.obj
      [("type", .str "set_volume"), ("methodName", .str "f")]) = false :=
  ⟨validator_accepts_shapes_rejects_unknown_type.1 _ (by rfl),
   validator_accepts_shapes_rejects_unknown_type.2 _ (by rfl)⟩

/-- C6. For every generation-service response that is truncated (stop reason
other than `end_turn`), not parseable as JSON, or whose top-level `commands`
field is absent or not an array, the generation cycle produces zero
commands: `cloudLlmGenerateCode` returns the empty list, and the backend
wrapper `callLLMCodeSynthesis` consequently surfaces an error instead of a
command list, so no commands from that cycle reach the store. -/
theorem failed_response_yields_zero_commands (response : LlmResponse)
    (h : response.stop_reason ≠ "end_turn" ∨ response.body = none ∨
      (∀ parsed, response.body = some parsed → commandsFieldIsArr parsed = false)) :
    cloudLlmGenerateCode response = [] ∧
    callLLMCodeSynthesis response =
      Except.error
        "No code-gen commands were generated from the cloud test or the sim backend." := by
  have hzero : cloudLlmGenerateCode response = [] := by
    rcases h with hstop | hbody | harr
    · simp [cloudLlmGenerateCode, hstop]
    · simp [cloudLlmGenerateCode, hbody]
    · unfold cloudLlmGenerateCode
      split_ifs with hs
      · rfl
      · cases hb : response.body with
        | none => rfl
        | some parsed =>
            have := harr parsed hb
            simp only [commandsFieldIsArr] at this
            cases hc : parsed.getField "commands" with
            | arr xs => rw [hc] at this; simp at this
            | null => simp [hc]
            | undefined => simp [hc]
            | bool b => simp [hc]
            | num n => simp [hc]
            | str s => simp [hc]
            | obj o => simp [hc]
  refine ⟨hzero, ?_⟩
  simp [callLLMCodeSynthesis, hzero]

/-- Witness: a truncated response (`max_tokens`) yields the empty command
list and the backend error. -/
theorem failed_response_witness :
    cloudLlmGenerateCode { stop_reason := "max_tokens", body := none } = [] ∧
    callLLMCodeSynthesis { stop_reason := "max_tokens", body := none } =
      Except.error
        "No code-gen commands were generated from the cloud test or the sim backend." :=
  failed_response_yields_zero_commands
    { stop_reason := "max_tokens", body := none } (Or.inl (by decide))

/-- C9. The `{name, occurrenceIndex}` sequence the edge builder extracts from
an implementation text is a pure function of the text (so scanning the same
text twice yields identical sequences), and the occurrence index it assigns
is exactly the deterministic zero-based per-name counter: each pair carries
the number of earlier occurrences of the same name in left-to-right order. -/
theorem edge_scan_deterministic_indexing (impl : String) :
    buildEdgeRefs impl = withLocalIndices (edgeScanNames impl) := by
  unfold buildEdgeRefs withLocalIndices
  apply buildEdgeRefsGo_eq_withLocalIndices
  intro n
  simp
